import Mathlib

/-!
A verification development for `app.py`, a Flask-SocketIO lobby server for a
multiplayer game.  The module keeps two global dicts, `rooms` (room id to Room
object) and `players` (connection sid to its room binding), plus the socket.io
room membership maintained by `join_room`/`leave_room`.  We model this state as
association lists with Python-dict semantics and translate each event handler
(`create_room`, `handle_join_room`, `handle_leave_room`, `handle_toggle_ready`,
`start_game`, `initialize_game_board`) into a pure Lean function.  Broadcasts
are modelled by recording, for every `emit`, the event tag together with the
list of connection ids that receive it at the moment the emit happens.
-/

set_option maxHeartbeats 1000000

/-- A player record: the dict `{'id': request.sid, 'name': ..., 'ready': False}`
built in `handle_join_room` (app.py lines 98-102). -/
structure Player where
  id : String
  name : String
  ready : Bool
deriving DecidableEq, Repr

/-- The board dict returned by `initialize_game_board` (app.py lines 194-202):
`btype` is the `'type'` key and `bstate` the `'state'` key. -/
structure Board where
  btype : String
  bstate : String
deriving DecidableEq, Repr

/-- The `room.game_state` dict assigned in `start_game` (app.py lines 183-187). -/
structure GameState where
  turn : Nat
  current_player : String
  board : Board
deriving DecidableEq, Repr

/-- The `Room` class (app.py lines 15-25).  `id` is the generated uuid, which is
also the room's key in the global `rooms` dict; `created_at` abstracts the
`datetime.now()` timestamp as a number supplied by the caller. -/
structure Room where
  id : String
  name : String
  max_players : Int
  password : Option String
  game_mode : String
  players : List Player
  status : String
  created_at : Nat
  game_state : Option GameState
deriving DecidableEq, Repr

/-- Event tags sent by `emit` calls in app.py; `error` carries the message
string used at the emit site. -/
inductive Ev where
  | error (msg : String)
  | player_joined
  | room_joined
  | player_left
  | player_ready
  | game_started
deriving DecidableEq, Repr

/-- One `emit` call: the event together with the list of connection ids that
receive it (the socket.io room members at emit time for a room broadcast, or
the single triggering connection for a direct emit). -/
structure Emit where
  event : Ev
  recipients : List String
deriving DecidableEq, Repr

/-- Lookup in an association list, with Python-dict semantics (the first entry
with the key; keys are unique in every state the program reaches). -/
def lookupD {α : Type} : List (String × α) → String → Option α
  | [], _ => none
  | (k, v) :: rest, key => if k = key then some v else lookupD rest key

/-- Deletion of a key (`del d[k]`). -/
def eraseD {α : Type} (l : List (String × α)) (key : String) : List (String × α) :=
  l.filter (fun p => p.1 ≠ key)

/-- Insertion / overwrite of a key (`d[k] = v`). -/
def insertD {α : Type} (l : List (String × α)) (key : String) (v : α) : List (String × α) :=
  eraseD l key ++ [(key, v)]

/-- In-place mutation of the value stored under a key (attribute assignment on
the object held in the dict). -/
def updateD {α : Type} (l : List (String × α)) (key : String) (f : α → α) : List (String × α) :=
  l.map (fun p => if p.1 = key then (p.1, f p.2) else p)

/-- The whole mutable state of the module: the `rooms` dict, the `players`
dict (connection sid to the id of the room it is bound to; the `'player'`
value stored alongside is an alias of the player record inside that room and
is recovered here by looking the sid up in the room's sequence), and the
socket.io room membership maintained by `join_room`/`leave_room`. -/
structure ServerState where
  rooms : List (String × Room)
  players : List (String × String)
  membership : List (String × List String)
deriving DecidableEq, Repr

/-- The members of a socket.io room (recipients of an `emit(..., room=rid)`). -/
def members (m : List (String × List String)) (rid : String) : List String :=
  (lookupD m rid).getD []

/-- `join_room(room_id)` from flask_socketio: add the sid to the socket.io
room (idempotent). -/
def joinSock (m : List (String × List String)) (rid sid : String) : List (String × List String) :=
  match lookupD m rid with
  | none => insertD m rid [sid]
  | some ms => if sid ∈ ms then m else updateD m rid (fun l => l ++ [sid])

/-- `leave_room(room_id)` from flask_socketio: remove the sid from the
socket.io room. -/
def leaveSock (m : List (String × List String)) (rid sid : String) : List (String × List String) :=
  updateD m rid (fun l => l.filter (fun x => x != sid))

/-- The password check of `handle_join_room` (app.py line 87):
`if room.password and room.password != password`.  Note the Python truthiness:
a room whose password is the empty string skips the check entirely. -/
def password_rejects (roomPwd supplied : Option String) : Bool :=
  match roomPwd with
  | none => false
  | some p => (p != "") && (supplied != some p)

/-- The readiness flip of `handle_toggle_ready` (app.py line 161).  The code
flips the record aliased from the `players` dict, which is the record with the
toggling connection's id inside the bound room's sequence; we flip by id. -/
def flipPlayers (ps : List Player) (sid : String) : List Player :=
  ps.map (fun p => if p.id = sid then { p with ready := !p.ready } else p)

/-- The empty initial state of the module (app.py lines 12-13). -/
def initState : ServerState := ⟨[], [], []⟩

/-- `create_room` (app.py lines 46-66): the POST /api/rooms handler.  `rid`
stands for the generated `uuid4` and `now` for `datetime.now()`.  Returns the
new state together with `some` room id on success, `none` on the empty-name
validation failure. -/
def create_room (s : ServerState) (rid : String) (now : Nat) (name : Option String)
    (max_players : Int) (password : Option String) (game_mode : String) :
    ServerState × Option String :=
  match name with
  | none => (s, none)
  | some n =>
    if n = "" then (s, none)
    else
      let room : Room :=
        { id := rid, name := n, max_players := max_players, password := password,
          game_mode := game_mode, players := [], status := "waiting",
          created_at := now, game_state := none }
      ({ s with rooms := insertD s.rooms rid room }, some rid)

/-- `handle_join_room` (app.py lines 73-116). -/
def handle_join_room (s : ServerState) (sid room_id : String)
    (player_name : Option String) (password : Option String) :
    ServerState × List Emit :=
  match lookupD s.rooms room_id with
  | none => (s, [⟨Ev.error "房间不存在", [sid]⟩])
  | some room =>
    if password_rejects room.password password then
      (s, [⟨Ev.error "房间密码错误", [sid]⟩])
    else if room.max_players ≤ (room.players.length : Int) then
      (s, [⟨Ev.error "房间已满", [sid]⟩])
    else
      let pname := player_name.getD ("玩家-" ++ sid.take 4)
      let player : Player := { id := sid, name := pname, ready := false }
      let m1 := joinSock s.membership room_id sid
      let rooms1 := updateD s.rooms room_id (fun r => { r with players := r.players ++ [player] })
      let reg1 := insertD s.players sid room_id
      (⟨rooms1, reg1, m1⟩,
        [⟨Ev.player_joined, members m1 room_id⟩, ⟨Ev.room_joined, [sid]⟩])

/-- `handle_leave_room` (app.py lines 118-145). -/
def handle_leave_room (s : ServerState) (sid : String) : ServerState × List Emit :=
  match lookupD s.players sid with
  | none => (s, [])
  | some room_id =>
    match lookupD s.rooms room_id with
    | none => (s, [])
    | some room =>
      let newPlayers := room.players.filter (fun p => p.id != sid)
      let rooms1 := updateD s.rooms room_id
        (fun r => { r with players := r.players.filter (fun p => p.id != sid) })
      let m1 := leaveSock s.membership room_id sid
      let reg1 := eraseD s.players sid
      let es : List Emit := [⟨Ev.player_left, members m1 room_id⟩]
      if newPlayers.length = 0 then
        (⟨eraseD rooms1 room_id, reg1, m1⟩, es)
      else
        (⟨rooms1, reg1, m1⟩, es)

/-- `initialize_game_board` (app.py lines 194-202). -/
def initialize_game_board (game_mode : String) : Board :=
  if game_mode = "classic" then ⟨"classic", "initial"⟩
  else if game_mode = "team" then ⟨"team", "initial"⟩
  else ⟨"custom", "initial"⟩

/-- `start_game` (app.py lines 174-192).  The status assignment happens before
`room.players[0]` is read, so if the room is empty the handler raises
`IndexError` after having set `status = "playing"`; the `.error` result carries
the state at the moment of the raise. -/
def start_game (s : ServerState) (room_id : String) :
    Except ServerState (ServerState × List Emit) :=
  match lookupD s.rooms room_id with
  | none => .ok (s, [])
  | some room =>
    let sPlaying : ServerState :=
      { s with rooms := updateD s.rooms room_id (fun r => { r with status := "playing" }) }
    match room.players with
    | [] => .error sPlaying
    | p0 :: _ =>
      let gs : GameState := ⟨0, p0.id, initialize_game_board room.game_mode⟩
      let rooms2 := updateD sPlaying.rooms room_id (fun r => { r with game_state := some gs })
      let s2 : ServerState := { sPlaying with rooms := rooms2 }
      .ok (s2, [⟨Ev.game_started, members s2.membership room_id⟩])

/-- `handle_toggle_ready` (app.py lines 147-172).  The re-check on line 171
reads `room.players` after the flip, i.e. the flipped sequence. -/
def handle_toggle_ready (s : ServerState) (sid : String) :
    Except ServerState (ServerState × List Emit) :=
  match lookupD s.players sid with
  | none => .ok (s, [])
  | some room_id =>
    match lookupD s.rooms room_id with
    | none => .ok (s, [])
    | some room =>
      let newPlayers := flipPlayers room.players sid
      let rooms1 := updateD s.rooms room_id (fun r => { r with players := flipPlayers r.players sid })
      let s1 : ServerState := { s with rooms := rooms1 }
      let es1 : List Emit := [⟨Ev.player_ready, members s1.membership room_id⟩]
      if newPlayers.all (fun p => p.ready) && decide (2 ≤ newPlayers.length) then
        match start_game s1 room_id with
        | .error sBad => .error sBad
        | .ok (s2, es2) => .ok (s2, es1 ++ es2)
      else
        .ok (s1, es1)

/-- One inbound event fully processed by the server, relating the state before
to the state after.  The relation is parameterized by a side condition on room
creation (`cOK`, on the requested `max_players`) and one on joins (`jOK`, on
the joining connection), so that the same constructors describe both the raw
behaviour of the code (both conditions trivially true) and restricted traces.
The `hfresh` hypothesis on `create` models the freshness of `uuid4()`. -/
inductive Step (cOK : Int → Prop) (jOK : ServerState → String → Prop) :
    ServerState → ServerState → Prop where
  | create (s : ServerState) (rid : String) (now : Nat) (name : Option String)
      (mp : Int) (pwd : Option String) (mode : String)
      (hfresh : lookupD s.rooms rid = none) (hc : cOK mp) :
      Step cOK jOK s (create_room s rid now name mp pwd mode).1
  | join (s : ServerState) (sid rid : String) (pn pwd : Option String) (hj : jOK s sid) :
      Step cOK jOK s (handle_join_room s sid rid pn pwd).1
  | leave (s : ServerState) (sid : String) :
      Step cOK jOK s (handle_leave_room s sid).1
  | toggle (s : ServerState) (sid : String) (s' : ServerState) (es : List Emit)
      (h : handle_toggle_ready s sid = .ok (s', es)) :
      Step cOK jOK s s'

/-- No side condition on creation: any `max_players` integer the client sends. -/
def anyCreate : Int → Prop := fun _ => True

/-- No side condition on joins. -/
def anyJoin : ServerState → String → Prop := fun _ _ => True

/-- Creation disabled (used to quantify over the non-create operations). -/
def noCreate : Int → Prop := fun _ => False

/-- Creation restricted to nonnegative `max_players`. -/
def nonnegCreate : Int → Prop := fun mp => 0 ≤ mp

/-- Joins restricted to connections not currently bound to any room. -/
def unboundJoin : ServerState → String → Prop := fun s sid => lookupD s.players sid = none

/-- States the unrestricted code can reach from the initial empty state. -/
def Reachable (s : ServerState) : Prop :=
  Relation.ReflTransGen (Step anyCreate anyJoin) initState s

/-- Reachability when every creation requests a nonnegative `max_players`. -/
def ReachableNN (s : ServerState) : Prop :=
  Relation.ReflTransGen (Step nonnegCreate anyJoin) initState s

/-- Reachability when every join comes from a connection that is not already
in a room. -/
def ReachableUJ (s : ServerState) : Prop :=
  Relation.ReflTransGen (Step anyCreate unboundJoin) initState s

/-- The keys of an association list. -/
def keysOf {α : Type} (l : List (String × α)) : List String := l.map Prod.fst

theorem lookupD_eq_none_iff {α : Type} (l : List (String × α)) (k : String) :
    lookupD l k = none ↔ ∀ p ∈ l, p.1 ≠ k := by
  induction l with
  | nil => simp [lookupD]
  | cons hd tl ih =>
    obtain ⟨k', v⟩ := hd
    by_cases h : k' = k <;> simp [lookupD, h, ih]

theorem lookupD_mem {α : Type} {l : List (String × α)} {k : String} {v : α}
    (h : lookupD l k = some v) : (k, v) ∈ l := by
  induction l with
  | nil => simp [lookupD] at h
  | cons hd tl ih =>
    obtain ⟨k', v'⟩ := hd
    by_cases hk : k' = k
    · simp [lookupD, hk] at h
      simp [hk, h]
    · simp [lookupD, hk] at h
      exact List.mem_cons_of_mem _ (ih h)

theorem lookupD_of_mem_nodup {α : Type} {l : List (String × α)} {k : String} {v : α}
    (hn : (keysOf l).Nodup) (hm : (k, v) ∈ l) : lookupD l k = some v := by
  induction l with
  | nil => simp at hm
  | cons hd tl ih =>
    obtain ⟨k', v'⟩ := hd
    simp only [keysOf, List.map_cons, List.nodup_cons] at hn
    rcases List.mem_cons.1 hm with h | h
    · obtain ⟨h1, h2⟩ := Prod.mk.injEq .. ▸ h
      simp [lookupD, h1.symm, h2]
    · have hk : k' ≠ k := by
        intro he
        exact hn.1 (he ▸ (List.mem_map.2 ⟨(k, v), h, rfl⟩))
      simp [lookupD, hk]
      exact ih hn.2 h

theorem value_eq_of_mem_nodup {α : Type} {l : List (String × α)} {k : String} {v1 v2 : α}
    (hn : (keysOf l).Nodup) (h1 : (k, v1) ∈ l) (h2 : (k, v2) ∈ l) : v1 = v2 := by
  have e1 := lookupD_of_mem_nodup hn h1
  have e2 := lookupD_of_mem_nodup hn h2
  rw [e1] at e2
  exact (Option.some.injEq .. ▸ e2)

theorem lookupD_eraseD {α : Type} (l : List (String × α)) (k k' : String) :
    lookupD (eraseD l k) k' = if k' = k then none else lookupD l k' := by
  induction l with
  | nil => simp [lookupD, eraseD]
  | cons hd tl ih =>
    obtain ⟨k0, v0⟩ := hd
    by_cases h0 : k0 = k
    · have he : eraseD ((k0, v0) :: tl) k = eraseD tl k := by
        simp [eraseD, List.filter_cons, h0]
      rw [he, ih]
      by_cases h2 : k' = k
      · simp [h2]
      · have hk0 : ¬ k0 = k' := by
          intro he2
          exact h2 (by rw [← he2]; exact h0)
        simp [lookupD, h2, hk0]
    · have he : eraseD ((k0, v0) :: tl) k = (k0, v0) :: eraseD tl k := by
        simp [eraseD, List.filter_cons, h0]
      rw [he]
      by_cases h1 : k0 = k'
      · have h2 : ¬ k' = k := by rw [← h1]; exact h0
        simp [lookupD, h1, h2]
      · simp only [lookupD, h1, if_false, if_neg]
        rw [ih]

theorem lookupD_append {α : Type} (l1 l2 : List (String × α)) (k : String) :
    lookupD (l1 ++ l2) k = match lookupD l1 k with
      | some v => some v
      | none => lookupD l2 k := by
  induction l1 with
  | nil => simp [lookupD]
  | cons hd tl ih =>
    obtain ⟨k0, v0⟩ := hd
    by_cases h : k0 = k <;> simp [lookupD, h, ih]

theorem lookupD_insertD {α : Type} (l : List (String × α)) (k k' : String) (v : α) :
    lookupD (insertD l k v) k' = if k' = k then some v else lookupD l k' := by
  unfold insertD
  rw [lookupD_append, lookupD_eraseD]
  by_cases h : k' = k
  · simp [lookupD, h]
  · have h' : ¬ k = k' := fun he => h he.symm
    cases hx : lookupD l k' <;> simp [lookupD, h, h', hx]

theorem lookupD_updateD {α : Type} (l : List (String × α)) (k k' : String) (f : α → α) :
    lookupD (updateD l k f) k' =
      if k' = k then (lookupD l k).map f else lookupD l k' := by
  induction l with
  | nil => by_cases h : k' = k <;> simp [lookupD, updateD, h]
  | cons hd tl ih =>
    obtain ⟨k0, v0⟩ := hd
    have hcons : updateD ((k0, v0) :: tl) k f
        = (if k0 = k then (k0, f v0) else (k0, v0)) :: updateD tl k f := by
      simp [updateD]
    rw [hcons]
    by_cases h0 : k0 = k
    · rw [if_pos h0]
      simp only [lookupD]
      by_cases h1 : k0 = k'
      · have h2 : k' = k := by rw [← h1]; exact h0
        simp [h1, h2, h0, lookupD]
      · have h2 : ¬ k' = k := fun hh => h1 (h0.trans hh.symm)
        simp [h1, h2, ih]
    · rw [if_neg h0]
      simp only [lookupD]
      by_cases h1 : k0 = k'
      · have h2 : ¬ k' = k := fun hh => h0 (h1.trans hh)
        simp [h1, h2]
      · simp [h1, h0, ih]

theorem keysOf_updateD {α : Type} (l : List (String × α)) (k : String) (f : α → α) :
    keysOf (updateD l k f) = keysOf l := by
  induction l with
  | nil => rfl
  | cons hd tl ih =>
    obtain ⟨k0, v0⟩ := hd
    by_cases h : k0 = k <;> simp [updateD, keysOf, h] at * <;> simpa [updateD, keysOf] using ih

theorem keysOf_eraseD {α : Type} (l : List (String × α)) (k : String) :
    keysOf (eraseD l k) = (keysOf l).filter (fun x => x ≠ k) := by
  induction l with
  | nil => rfl
  | cons hd tl ih =>
    obtain ⟨k0, v0⟩ := hd
    by_cases h : k0 = k <;> simp [eraseD, keysOf, h, List.filter] at * <;>
      simpa [eraseD, keysOf] using ih

theorem nodup_keys_eraseD {α : Type} {l : List (String × α)} (k : String)
    (hn : (keysOf l).Nodup) : (keysOf (eraseD l k)).Nodup := by
  rw [keysOf_eraseD]
  exact hn.filter _

theorem nodup_keys_updateD {α : Type} {l : List (String × α)} (k : String) (f : α → α)
    (hn : (keysOf l).Nodup) : (keysOf (updateD l k f)).Nodup := by
  rw [keysOf_updateD]
  exact hn

theorem nodup_keys_insertD {α : Type} {l : List (String × α)} (k : String) (v : α)
    (hn : (keysOf l).Nodup) : (keysOf (insertD l k v)).Nodup := by
  unfold insertD keysOf
  rw [List.map_append]
  have he := keysOf_eraseD l k
  unfold keysOf at he
  rw [he]
  simp only [List.map_cons, List.map_nil]
  rw [List.nodup_append]
  refine ⟨hn.filter _, List.nodup_singleton k, ?_⟩
  intro x hx
  have := List.of_mem_filter hx
  simp at this
  simp [this]

theorem mem_eraseD_iff {α : Type} (l : List (String × α)) (k : String) (p : String × α) :
    p ∈ eraseD l k ↔ p ∈ l ∧ p.1 ≠ k := by
  unfold eraseD
  rw [List.mem_filter]
  simp

theorem mem_insertD_iff {α : Type} (l : List (String × α)) (k : String) (v : α) (p : String × α) :
    p ∈ insertD l k v ↔ (p ∈ l ∧ p.1 ≠ k) ∨ p = (k, v) := by
  unfold insertD
  rw [List.mem_append, mem_eraseD_iff]
  simp

theorem mem_updateD {α : Type} {l : List (String × α)} {k : String} {f : α → α}
    {p : String × α} (h : p ∈ updateD l k f) :
    ∃ q ∈ l, p = if q.1 = k then (q.1, f q.2) else q := by
  unfold updateD at h
  obtain ⟨q, hq, he⟩ := List.mem_map.1 h
  exact ⟨q, hq, he.symm⟩

theorem mem_updateD_of_mem {α : Type} {l : List (String × α)} (k : String) (f : α → α)
    {p : String × α} (h : p ∈ l) :
    (if p.1 = k then (p.1, f p.2) else p) ∈ updateD l k f := by
  unfold updateD
  exact List.mem_map.2 ⟨p, h, rfl⟩

theorem eraseD_of_fresh {α : Type} {l : List (String × α)} {k : String}
    (h : lookupD l k = none) : eraseD l k = l := by
  unfold eraseD
  rw [List.filter_eq_self]
  intro p hp
  have := (lookupD_eq_none_iff l k).1 h p hp
  simpa using this

theorem members_joinSock (m : List (String × List String)) (rid sid : String) :
    ∀ x, x ∈ members (joinSock m rid sid) rid ↔ (x ∈ members m rid ∨ x = sid) := by
  intro x
  unfold joinSock members
  cases hm : lookupD m rid with
  | none =>
    rw [lookupD_insertD]
    simp
  | some ms =>
    by_cases hs : sid ∈ ms
    · simp [hs, hm]
      intro he
      rw [he]
      exact hs
    · simp [hs, hm, lookupD_updateD, List.mem_append]

/-- The state after a `toggle_ready` event: the handler's resulting state when
it returns normally, or the state at the moment of the raise when it raises. -/
def toggledState (s : ServerState) (sid : String) : ServerState :=
  match handle_toggle_ready s sid with
  | .ok (s', _) => s'
  | .error sBad => sBad

/-- The emits a `toggle_ready` event performed before returning or raising. -/
def toggledEmits (s : ServerState) (sid : String) : List Emit :=
  match handle_toggle_ready s sid with
  | .ok (_, es) => es
  | .error _ => []

/-- Lobby scenario states: create a room "Test" for two, then Alice and Bob
join, both toggle ready (the game starts), then Alice toggles twice more. -/
def sLobby1 : ServerState := (create_room initState "r1" 0 (some "Test") 2 none "classic").1

/-- After Alice joins the "Test" room. -/
def sLobby2 : ServerState := (handle_join_room sLobby1 "A" "r1" (some "Alice") none).1

/-- After Bob also joins. -/
def sLobby3 : ServerState := (handle_join_room sLobby2 "B" "r1" (some "Bob") none).1

/-- After Alice toggles ready. -/
def sLobby4 : ServerState := toggledState sLobby3 "A"

/-- After Bob toggles ready: the game has started, status is "playing". -/
def sPlaying : ServerState := toggledState sLobby4 "B"

/-- After Alice toggles once more (now unready) while the game is running. -/
def sPlayingUnready : ServerState := toggledState sPlaying "A"

/-- C9 counterexample: `initialize_game_board` does not tag an arbitrary mode
with that mode (every unknown mode is tagged "custom"), and two distinct
non-builtin modes yield the very same structure. -/
theorem board_by_mode_cex :
    (initialize_game_board "gomoku").btype ≠ "gomoku"
    ∧ initialize_game_board "gomoku" = initialize_game_board "blitz"
    ∧ "gomoku" ≠ "blitz" := by decide

/-- C9 (amended): the board built for a mode carries the "initial" marker and
is tagged with the mode itself for the two built-in modes "classic" and
"team", and with "custom" for every other mode; only those three board
structures are pairwise distinct. -/
theorem board_by_mode (mode : String) :
    (initialize_game_board mode
       = ⟨if mode = "classic" then "classic" else if mode = "team" then "team" else "custom",
          "initial"⟩)
    ∧ initialize_game_board "classic" ≠ initialize_game_board "team"
    ∧ initialize_game_board "team" ≠ initialize_game_board "free"
    ∧ initialize_game_board "classic" ≠ initialize_game_board "free" := by
  refine ⟨?_, by decide, by decide, by decide⟩
  unfold initialize_game_board
  by_cases h1 : mode = "classic" <;> by_cases h2 : mode = "team" <;> simp [h1, h2]

/-- A room created with the empty string as its password: it counts as
password-protected (`has_password` is `password is not None`) but the check
`if room.password` is falsy, so any supplied password is accepted. -/
def sEmptyPwd : ServerState := (create_room initState "r" 0 (some "Room") 2 (some "") "classic").1

/-- C4 counterexample: against the room whose password is `""`, a join carrying
the non-matching password "x" is accepted — it mutates the state and emits no
InvalidPassword error. -/
theorem join_wrong_password_cex :
    Reachable sEmptyPwd
    ∧ (lookupD sEmptyPwd.rooms "r").map Room.password = some (some "")
    ∧ (handle_join_room sEmptyPwd "B" "r" (some "B") (some "x")).1 ≠ sEmptyPwd
    ∧ ∀ e ∈ (handle_join_room sEmptyPwd "B" "r" (some "B") (some "x")).2,
        e.event ≠ Ev.error "房间密码错误" := by
  refine ⟨?_, by decide, by decide, by decide⟩
  exact Relation.ReflTransGen.single
    (Step.create initState "r" 0 (some "Room") 2 (some "") "classic" rfl True.intro)

/-- C4 (amended): for a room whose password is a non-empty string, a join whose
supplied password differs is rejected: the whole state is unchanged and the
only emit is the InvalidPassword error, sent to the joining connection alone. -/
theorem join_wrong_password_rejected (s : ServerState) (sid rid : String)
    (pn pwd : Option String) (room : Room) (p : String)
    (hroom : lookupD s.rooms rid = some room)
    (hp : room.password = some p) (hne : p ≠ "") (hm : pwd ≠ some p) :
    handle_join_room s sid rid pn pwd = (s, [⟨Ev.error "房间密码错误", [sid]⟩]) := by
  unfold handle_join_room
  rw [hroom]
  have hrej : password_rejects room.password pwd = true := by
    rw [hp]
    unfold password_rejects
    simp [hne, hm]
  simp [hrej]

/-- A room created with password "secret". -/
def sSecretPwd : ServerState :=
  (create_room initState "r" 0 (some "Room") 2 (some "secret") "classic").1

/-- The room object stored in `sSecretPwd`. -/
def roomSecret : Room :=
  ⟨"r", "Room", 2, some "secret", "classic", [], "waiting", 0, none⟩

theorem join_wrong_password_rejected_witness :
    (lookupD sSecretPwd.rooms "r" = some roomSecret
      ∧ roomSecret.password = some "secret" ∧ "secret" ≠ "" ∧ some "guess" ≠ some "secret")
    ∧ handle_join_room sSecretPwd "B" "r" (some "B") (some "guess")
        = (sSecretPwd, [⟨Ev.error "房间密码错误", ["B"]⟩]) :=
  ⟨⟨by decide, by decide, by decide, by decide⟩,
    join_wrong_password_rejected sSecretPwd "B" "r" (some "B") (some "guess") roomSecret "secret"
      (by decide) (by decide) (by decide) (by decide)⟩

/-- The state with the "Test" room containing Alice only (used as the room an
existing member sits in when Bob joins). -/
def sJoinedA : ServerState := sLobby2

/-- C6 counterexample: Bob joins the room that Alice is already in.  The code
calls `join_room` before emitting, so the `player_joined` broadcast reaches
["A", "B"] — including Bob, the joining connection, contrary to the claim that
only the members existing before the join receive it. -/
theorem join_broadcast_cex :
    Reachable sJoinedA
    ∧ "B" ∉ members sJoinedA.membership "r1"
    ∧ (handle_join_room sJoinedA "B" "r1" (some "Bob") none).2
        = [⟨Ev.player_joined, ["A", "B"]⟩, ⟨Ev.room_joined, ["B"]⟩] := by
  refine ⟨?_, by decide, by decide⟩
  exact Relation.ReflTransGen.tail
    (Relation.ReflTransGen.single
      (Step.create initState "r1" 0 (some "Test") 2 none "classic" rfl True.intro))
    (Step.join sLobby1 "A" "r1" (some "Alice") none True.intro)

/-- C6 (amended): a successful join emits exactly two events: `player_joined`,
room-broadcast to the socket.io members at emit time — which are the members
before the join plus the joining connection itself, since `join_room` runs
first — and `room_joined`, sent to the joining connection alone. -/
theorem join_broadcast_recipients (s : ServerState) (sid rid : String)
    (pn pwd : Option String) (room : Room)
    (hroom : lookupD s.rooms rid = some room)
    (hpwd : password_rejects room.password pwd = false)
    (hcap : (room.players.length : Int) < room.max_players) :
    (handle_join_room s sid rid pn pwd).2
        = [⟨Ev.player_joined, members (joinSock s.membership rid sid) rid⟩,
           ⟨Ev.room_joined, [sid]⟩]
      ∧ sid ∈ members (joinSock s.membership rid sid) rid
      ∧ ∀ x, x ∈ members (joinSock s.membership rid sid) rid
          ↔ (x ∈ members s.membership rid ∨ x = sid) := by
  refine ⟨?_, (members_joinSock s.membership rid sid sid).2 (Or.inr rfl),
    members_joinSock s.membership rid sid⟩
  unfold handle_join_room
  rw [hroom]
  simp [hpwd, not_le.2 hcap]

/-- The room object stored in `sJoinedA`. -/
def roomJoinedA : Room :=
  ⟨"r1", "Test", 2, none, "classic", [⟨"A", "Alice", false⟩], "waiting", 0, none⟩

theorem join_broadcast_recipients_witness :
    (lookupD sJoinedA.rooms "r1" = some roomJoinedA
      ∧ password_rejects roomJoinedA.password none = false
      ∧ ((roomJoinedA.players.length : Int) < roomJoinedA.max_players))
    ∧ ((handle_join_room sJoinedA "B" "r1" (some "Bob") none).2
        = [⟨Ev.player_joined, members (joinSock sJoinedA.membership "r1" "B") "r1"⟩,
           ⟨Ev.room_joined, ["B"]⟩]
      ∧ "B" ∈ members (joinSock sJoinedA.membership "r1" "B") "r1"
      ∧ ∀ x, x ∈ members (joinSock sJoinedA.membership "r1" "B") "r1"
          ↔ (x ∈ members sJoinedA.membership "r1" ∨ x = "B")) :=
  ⟨⟨by decide, by decide, by decide⟩,
    join_broadcast_recipients sJoinedA "B" "r1" (some "Bob") none roomJoinedA
      (by decide) (by decide) (by decide)⟩

/-- C1: after the game has started (`sPlayingUnready` has status "playing" and
Alice unready), Alice's next `toggle_ready` makes all players ready again and
the unguarded re-check calls `start_game` a second time: another `game_started`
broadcast is emitted from a room whose status is already "playing".  The state
is reachable by the plain code path create → join ×2 → toggle ×4. -/
theorem toggle_after_start_refires :
    Reachable sPlayingUnready
    ∧ (lookupD sPlayingUnready.rooms "r1").map Room.status = some "playing"
    ∧ handle_toggle_ready sPlayingUnready "A"
        = .ok (toggledState sPlayingUnready "A", toggledEmits sPlayingUnready "A")
    ∧ Ev.game_started ∈ (toggledEmits sPlayingUnready "A").map Emit.event := by
  refine ⟨?_, by decide, rfl, by decide⟩
  have c1 : Step anyCreate anyJoin initState sLobby1 :=
    Step.create initState "r1" 0 (some "Test") 2 none "classic" rfl True.intro
  have j1 : Step anyCreate anyJoin sLobby1 sLobby2 :=
    Step.join sLobby1 "A" "r1" (some "Alice") none True.intro
  have j2 : Step anyCreate anyJoin sLobby2 sLobby3 :=
    Step.join sLobby2 "B" "r1" (some "Bob") none True.intro
  have t1 : Step anyCreate anyJoin sLobby3 sLobby4 :=
    Step.toggle sLobby3 "A" sLobby4 (toggledEmits sLobby3 "A") rfl
  have t2 : Step anyCreate anyJoin sLobby4 sPlaying :=
    Step.toggle sLobby4 "B" sPlaying (toggledEmits sLobby4 "B") rfl
  have t3 : Step anyCreate anyJoin sPlaying sPlayingUnready :=
    Step.toggle sPlaying "A" sPlayingUnready (toggledEmits sPlaying "A") rfl
  exact Relation.ReflTransGen.tail
    (Relation.ReflTransGen.tail
      (Relation.ReflTransGen.tail
        (Relation.ReflTransGen.tail
          (Relation.ReflTransGen.single c1) j1) j2) t1) t2 |>.tail t3

theorem toggle_eq_of_cond_false (s : ServerState) (sid rid : String) (room : Room)
    (hreg : lookupD s.players sid = some rid)
    (hroom : lookupD s.rooms rid = some room)
    (hcb : ((flipPlayers room.players sid).all (fun p => p.ready)
            && decide (2 ≤ (flipPlayers room.players sid).length)) = false) :
    handle_toggle_ready s sid = .ok
      ({ s with rooms := updateD s.rooms rid (fun r => { r with players := flipPlayers r.players sid }) },
       [⟨Ev.player_ready, members s.membership rid⟩]) := by
  unfold handle_toggle_ready
  simp only [hreg, hroom, hcb]
  simp

theorem toggle_eq_of_cond_true (s : ServerState) (sid rid : String) (room : Room)
    (p0 : Player) (tl : List Player)
    (hreg : lookupD s.players sid = some rid)
    (hroom : lookupD s.rooms rid = some room)
    (hnp : flipPlayers room.players sid = p0 :: tl)
    (hcb : ((flipPlayers room.players sid).all (fun p => p.ready)
            && decide (2 ≤ (flipPlayers room.players sid).length)) = true) :
    handle_toggle_ready s sid = .ok
      ({ s with rooms := updateD (updateD (updateD s.rooms rid (fun r => { r with players := flipPlayers r.players sid })) rid (fun r => { r with status := "playing" })) rid (fun r => { r with game_state := some ⟨0, p0.id, initialize_game_board room.game_mode⟩ }) },
       [⟨Ev.player_ready, members s.membership rid⟩,
        ⟨Ev.game_started, members s.membership rid⟩]) := by
  unfold handle_toggle_ready
  simp only [hreg, hroom, hcb]
  unfold start_game
  have h1 : lookupD (updateD s.rooms rid (fun r => { r with players := flipPlayers r.players sid })) rid
      = some { room with players := flipPlayers room.players sid } := by
    rw [lookupD_updateD, if_pos rfl, hroom]
    rfl
  simp only [h1, hnp]
  simp

/-- C7: for a member of a waiting room, after a readiness toggle the room's
status becomes "playing" — and a `game_started` broadcast is emitted — exactly
when, in the flipped player sequence, every player is ready and there are at
least two players.  In particular with fewer than two players the status never
becomes "playing", however ready they all are. -/
theorem toggle_transition_iff (s : ServerState) (sid rid : String) (room : Room)
    (hreg : lookupD s.players sid = some rid)
    (hroom : lookupD s.rooms rid = some room)
    (hw : room.status = "waiting") :
    ∃ s' es, handle_toggle_ready s sid = .ok (s', es)
      ∧ ∃ room', lookupD s'.rooms rid = some room'
        ∧ (room'.status = "playing"
            ↔ ((flipPlayers room.players sid).all (fun p => p.ready) = true
                ∧ 2 ≤ (flipPlayers room.players sid).length))
        ∧ (Ev.game_started ∈ es.map Emit.event
            ↔ ((flipPlayers room.players sid).all (fun p => p.ready) = true
                ∧ 2 ≤ (flipPlayers room.players sid).length)) := by
  cases hcb : ((flipPlayers room.players sid).all (fun p => p.ready)
      && decide (2 ≤ (flipPlayers room.players sid).length)) with
  | false =>
    have hprop : ¬ ((flipPlayers room.players sid).all (fun p => p.ready) = true
        ∧ 2 ≤ (flipPlayers room.players sid).length) := by
      intro hx
      rw [hx.1] at hcb
      simp [hx.2] at hcb
    refine ⟨_, _, toggle_eq_of_cond_false s sid rid room hreg hroom hcb, ?_⟩
    refine ⟨_, by rw [lookupD_updateD, if_pos rfl, hroom]; rfl, ?_, ?_⟩
    · constructor
      · intro hst
        simp at hst
        rw [hw] at hst
        exact absurd hst (by decide)
      · intro hx
        exact absurd hx hprop
    · constructor
      · intro hm
        simp at hm
      · intro hx
        exact absurd hx hprop
  | true =>
    have hcb2 := hcb
    rw [Bool.and_eq_true] at hcb2
    have hall : (flipPlayers room.players sid).all (fun p => p.ready) = true := hcb2.1
    have hlen : 2 ≤ (flipPlayers room.players sid).length := of_decide_eq_true hcb2.2
    obtain ⟨p0, tl, hnp⟩ : ∃ p0 tl, flipPlayers room.players sid = p0 :: tl := by
      cases hx : flipPlayers room.players sid with
      | nil => rw [hx] at hlen; simp at hlen
      | cons a b => exact ⟨a, b, rfl⟩
    refine ⟨_, _, toggle_eq_of_cond_true s sid rid room p0 tl hreg hroom hnp hcb, ?_⟩
    refine ⟨{ room with players := flipPlayers room.players sid, status := "playing", game_state := some ⟨0, p0.id, initialize_game_board room.game_mode⟩ }, ?_, ?_, ?_⟩
    · rw [lookupD_updateD, if_pos rfl, lookupD_updateD, if_pos rfl, lookupD_updateD,
        if_pos rfl, hroom]
      rfl
    · constructor
      · intro _
        exact ⟨hall, hlen⟩
      · intro _
        rfl
    · constructor
      · intro _
        exact ⟨hall, hlen⟩
      · intro _
        simp

theorem toggle_transition_iff_witness :
    (lookupD sJoinedA.players "A" = some "r1"
      ∧ lookupD sJoinedA.rooms "r1" = some roomJoinedA
      ∧ roomJoinedA.status = "waiting")
    ∧ ∃ s' es, handle_toggle_ready sJoinedA "A" = .ok (s', es)
      ∧ ∃ room', lookupD s'.rooms "r1" = some room'
        ∧ (room'.status = "playing"
            ↔ ((flipPlayers roomJoinedA.players "A").all (fun p => p.ready) = true
                ∧ 2 ≤ (flipPlayers roomJoinedA.players "A").length))
        ∧ (Ev.game_started ∈ es.map Emit.event
            ↔ ((flipPlayers roomJoinedA.players "A").all (fun p => p.ready) = true
                ∧ 2 ≤ (flipPlayers roomJoinedA.players "A").length)) :=
  ⟨⟨by decide, by decide, by decide⟩,
    toggle_transition_iff sJoinedA "A" "r1" roomJoinedA (by decide) (by decide) (by decide)⟩

/-- C10: whenever the readiness re-check fires (flipped sequence all ready and
at least two players), the room's sequence is non-empty — so the
`room.players[0]` access cannot fail and the handler returns normally — and the
new game_state has turn 0 and current_player equal to the id of the head of the
player sequence, i.e. the earliest-joined player still in the room (the
sequence is append-on-join / filter-on-leave, so its head is the oldest
member). -/
theorem toggle_start_current_player (s : ServerState) (sid rid : String) (room : Room)
    (hreg : lookupD s.players sid = some rid)
    (hroom : lookupD s.rooms rid = some room)
    (hall : (flipPlayers room.players sid).all (fun p => p.ready) = true)
    (hlen : 2 ≤ (flipPlayers room.players sid).length) :
    ∃ q0 tq, room.players = q0 :: tq
      ∧ ∃ s' es, handle_toggle_ready s sid = .ok (s', es)
        ∧ ∃ room', lookupD s'.rooms rid = some room'
          ∧ room'.status = "playing"
          ∧ room'.players = flipPlayers room.players sid
          ∧ room'.game_state = some ⟨0, q0.id, initialize_game_board room.game_mode⟩ := by
  obtain ⟨q0, tq, hq⟩ : ∃ q0 tq, room.players = q0 :: tq := by
    cases hx : room.players with
    | nil =>
      rw [hx] at hlen
      simp [flipPlayers] at hlen
    | cons a b => exact ⟨a, b, rfl⟩
  have hcb : ((flipPlayers room.players sid).all (fun p => p.ready)
      && decide (2 ≤ (flipPlayers room.players sid).length)) = true := by
    rw [Bool.and_eq_true]
    exact ⟨hall, decide_eq_true hlen⟩
  have hnp : flipPlayers room.players sid
      = (if q0.id = sid then { q0 with ready := !q0.ready } else q0) :: flipPlayers tq sid := by
    rw [hq]
    by_cases h : q0.id = sid <;> simp [flipPlayers, h]
  have hid : (if q0.id = sid then { q0 with ready := !q0.ready } else q0).id = q0.id := by
    by_cases h : q0.id = sid <;> simp [h]
  refine ⟨q0, tq, hq, _, _,
    toggle_eq_of_cond_true s sid rid room _ _ hreg hroom hnp hcb, ?_⟩
  refine ⟨{ room with players := flipPlayers room.players sid, status := "playing", game_state := some ⟨0, (if q0.id = sid then { q0 with ready := !q0.ready } else q0).id, initialize_game_board room.game_mode⟩ }, ?_, rfl, rfl, ?_⟩
  · rw [lookupD_updateD, if_pos rfl, lookupD_updateD, if_pos rfl, lookupD_updateD,
      if_pos rfl, hroom]
    rfl
  · rw [hid]

/-- The room object stored in `sLobby4` (Alice ready, Bob not yet). -/
def roomLobby4 : Room :=
  ⟨"r1", "Test", 2, none, "classic",
    [⟨"A", "Alice", true⟩, ⟨"B", "Bob", false⟩], "waiting", 0, none⟩

theorem toggle_start_current_player_witness :
    (lookupD sLobby4.players "B" = some "r1"
      ∧ lookupD sLobby4.rooms "r1" = some roomLobby4
      ∧ (flipPlayers roomLobby4.players "B").all (fun p => p.ready) = true
      ∧ 2 ≤ (flipPlayers roomLobby4.players "B").length)
    ∧ ∃ q0 tq, roomLobby4.players = q0 :: tq
      ∧ ∃ s' es, handle_toggle_ready sLobby4 "B" = .ok (s', es)
        ∧ ∃ room', lookupD s'.rooms "r1" = some room'
          ∧ room'.status = "playing"
          ∧ room'.players = flipPlayers roomLobby4.players "B"
          ∧ room'.game_state = some ⟨0, q0.id, initialize_game_board roomLobby4.game_mode⟩ :=
  ⟨⟨by decide, by decide, by decide, by decide⟩,
    toggle_start_current_player sLobby4 "B" "r1" roomLobby4
      (by decide) (by decide) (by decide) (by decide)⟩

/-- C8: for a bound connection whose room exists, a leave event removes the
room from the store exactly when the filtered player sequence is empty, and
otherwise keeps the room in the store with the filtered sequence. -/
theorem leave_removes_room_iff (s : ServerState) (sid rid : String) (room : Room)
    (hreg : lookupD s.players sid = some rid)
    (hroom : lookupD s.rooms rid = some room) :
    (room.players.filter (fun p => p.id != sid) = []
        → lookupD (handle_leave_room s sid).1.rooms rid = none)
    ∧ (room.players.filter (fun p => p.id != sid) ≠ []
        → lookupD (handle_leave_room s sid).1.rooms rid
            = some { room with players := room.players.filter (fun p => p.id != sid) }) := by
  have hres : handle_leave_room s sid =
      (if (room.players.filter (fun p => p.id != sid)).length = 0 then
        (⟨eraseD (updateD s.rooms rid (fun r => { r with players := r.players.filter (fun p => p.id != sid) })) rid, eraseD s.players sid, leaveSock s.membership rid sid⟩,
         [⟨Ev.player_left, members (leaveSock s.membership rid sid) rid⟩])
       else
        (⟨updateD s.rooms rid (fun r => { r with players := r.players.filter (fun p => p.id != sid) }), eraseD s.players sid, leaveSock s.membership rid sid⟩,
         [⟨Ev.player_left, members (leaveSock s.membership rid sid) rid⟩])) := by
    unfold handle_leave_room
    rw [hreg]
    simp only [hroom]
  rw [hres]
  by_cases hlen : (room.players.filter (fun p => p.id != sid)).length = 0
  · have hnil : room.players.filter (fun p => p.id != sid) = [] :=
      List.length_eq_zero.1 hlen
    rw [if_pos hlen]
    constructor
    · intro _
      rw [lookupD_eraseD, if_pos rfl]
    · intro hne
      exact absurd hnil hne
  · have hne : room.players.filter (fun p => p.id != sid) ≠ [] := by
      intro h
      exact hlen (by rw [h]; rfl)
    rw [if_neg hlen]
    constructor
    · intro h
      exact absurd h hne
    · intro _
      rw [lookupD_updateD, if_pos rfl, hroom]
      rfl

theorem leave_removes_room_iff_witness :
    (lookupD sJoinedA.players "A" = some "r1"
      ∧ lookupD sJoinedA.rooms "r1" = some roomJoinedA)
    ∧ ((roomJoinedA.players.filter (fun p => p.id != "A") = []
        → lookupD (handle_leave_room sJoinedA "A").1.rooms "r1" = none)
      ∧ (roomJoinedA.players.filter (fun p => p.id != "A") ≠ []
        → lookupD (handle_leave_room sJoinedA "A").1.rooms "r1"
            = some { roomJoinedA with players := roomJoinedA.players.filter (fun p => p.id != "A") })) :=
  ⟨⟨by decide, by decide⟩,
    leave_removes_room_iff sJoinedA "A" "r1" roomJoinedA (by decide) (by decide)⟩

theorem insertD_of_fresh {α : Type} {l : List (String × α)} {k : String} (v : α)
    (h : lookupD l k = none) : insertD l k v = l ++ [(k, v)] := by
  unfold insertD
  rw [eraseD_of_fresh h]

theorem create_state_cases (s : ServerState) (rid : String) (now : Nat) (name : Option String)
    (mp : Int) (pwd : Option String) (mode : String) :
    (create_room s rid now name mp pwd mode).1 = s
    ∨ ∃ n, name = some n ∧ n ≠ ""
        ∧ (create_room s rid now name mp pwd mode).1
          = { s with rooms := insertD s.rooms rid ⟨rid, n, mp, pwd, mode, [], "waiting", now, none⟩ } := by
  cases name with
  | none => left; rfl
  | some n =>
    by_cases hn : n = ""
    · left
      unfold create_room
      simp [hn]
    · right
      refine ⟨n, rfl, hn, ?_⟩
      unfold create_room
      simp [hn]

theorem join_state_cases (s : ServerState) (sid rid0 : String) (pn pwd : Option String) :
    (handle_join_room s sid rid0 pn pwd).1 = s
    ∨ ∃ room0, lookupD s.rooms rid0 = some room0
        ∧ ¬ room0.max_players ≤ (room0.players.length : Int)
        ∧ (handle_join_room s sid rid0 pn pwd).1
            = ⟨updateD s.rooms rid0 (fun r => { r with players := r.players ++ [⟨sid, pn.getD ("玩家-" ++ sid.take 4), false⟩] }), insertD s.players sid rid0, joinSock s.membership rid0 sid⟩ := by
  cases hr : lookupD s.rooms rid0 with
  | none =>
    left
    unfold handle_join_room
    rw [hr]
  | some room0 =>
    cases hpw : password_rejects room0.password pwd with
    | true =>
      left
      unfold handle_join_room
      rw [hr]
      simp [hpw]
    | false =>
      by_cases hcap : room0.max_players ≤ (room0.players.length : Int)
      · left
        unfold handle_join_room
        rw [hr]
        simp [hpw, hcap]
      · right
        refine ⟨room0, rfl, hcap, ?_⟩
        unfold handle_join_room
        rw [hr]
        simp [hpw, hcap]

theorem leave_state_cases (s : ServerState) (sid : String) :
    (handle_leave_room s sid).1 = s
    ∨ ∃ rid0 room0, lookupD s.players sid = some rid0
        ∧ lookupD s.rooms rid0 = some room0
        ∧ ((room0.players.filter (fun p => p.id != sid) = []
              ∧ (handle_leave_room s sid).1
                = ⟨eraseD (updateD s.rooms rid0 (fun r => { r with players := r.players.filter (fun p => p.id != sid) })) rid0, eraseD s.players sid, leaveSock s.membership rid0 sid⟩)
          ∨ (room0.players.filter (fun p => p.id != sid) ≠ []
              ∧ (handle_leave_room s sid).1
                = ⟨updateD s.rooms rid0 (fun r => { r with players := r.players.filter (fun p => p.id != sid) }), eraseD s.players sid, leaveSock s.membership rid0 sid⟩)) := by
  cases hreg : lookupD s.players sid with
  | none =>
    left
    unfold handle_leave_room
    rw [hreg]
  | some rid0 =>
    cases hroom : lookupD s.rooms rid0 with
    | none =>
      left
      unfold handle_leave_room
      rw [hreg]
      simp [hroom]
    | some room0 =>
      right
      refine ⟨rid0, room0, rfl, hroom, ?_⟩
      by_cases hfil : (room0.players.filter (fun p => p.id != sid)).length = 0
      · left
        refine ⟨List.length_eq_zero.1 hfil, ?_⟩
        unfold handle_leave_room
        rw [hreg]
        simp only [hroom]
        rw [if_pos hfil]
      · right
        have hne : room0.players.filter (fun p => p.id != sid) ≠ [] := by
          intro h
          exact hfil (by rw [h]; rfl)
        refine ⟨hne, ?_⟩
        unfold handle_leave_room
        rw [hreg]
        simp only [hroom]
        rw [if_neg hfil]

theorem toggle_state_cases (s : ServerState) (sid : String) (s' : ServerState) (es : List Emit)
    (h : handle_toggle_ready s sid = .ok (s', es)) :
    s' = s
    ∨ ∃ rid0 room0, lookupD s.players sid = some rid0
        ∧ lookupD s.rooms rid0 = some room0
        ∧ (s' = { s with rooms := updateD s.rooms rid0 (fun r => { r with players := flipPlayers r.players sid }) }
          ∨ ∃ p0 tl, flipPlayers room0.players sid = p0 :: tl
              ∧ s' = { s with rooms := updateD (updateD (updateD s.rooms rid0 (fun r => { r with players := flipPlayers r.players sid })) rid0 (fun r => { r with status := "playing" })) rid0 (fun r => { r with game_state := some ⟨0, p0.id, initialize_game_board room0.game_mode⟩ }) }) := by
  cases hreg : lookupD s.players sid with
  | none =>
    left
    unfold handle_toggle_ready at h
    rw [hreg] at h
    simp at h
    exact h.1.symm
  | some rid0 =>
    cases hroom : lookupD s.rooms rid0 with
    | none =>
      left
      unfold handle_toggle_ready at h
      rw [hreg] at h
      simp only [hroom] at h
      simp at h
      exact h.1.symm
    | some room0 =>
      right
      refine ⟨rid0, room0, rfl, hroom, ?_⟩
      cases hcb : (flipPlayers room0.players sid).all (fun p => p.ready)
          && decide (2 ≤ (flipPlayers room0.players sid).length) with
      | false =>
        left
        have heq := toggle_eq_of_cond_false s sid rid0 room0 hreg hroom hcb
        rw [heq] at h
        have := Except.ok.inj h
        exact (Prod.mk.injEq .. ▸ this).1.symm
      | true =>
        right
        have hcb2 := hcb
        rw [Bool.and_eq_true] at hcb2
        have hlen : 2 ≤ (flipPlayers room0.players sid).length := of_decide_eq_true hcb2.2
        obtain ⟨p0, tl, hnp⟩ : ∃ p0 tl, flipPlayers room0.players sid = p0 :: tl := by
          cases hx : flipPlayers room0.players sid with
          | nil => rw [hx] at hlen; simp at hlen
          | cons a b => exact ⟨a, b, rfl⟩
        refine ⟨p0, tl, hnp, ?_⟩
        have heq := toggle_eq_of_cond_true s sid rid0 room0 p0 tl hreg hroom hnp hcb
        rw [heq] at h
        have := Except.ok.inj h
        exact (Prod.mk.injEq .. ▸ this).1.symm

/-- The spec's "no empty room persists" property, read over the room store. -/
def NoEmptyRooms (s : ServerState) : Prop :=
  ∀ rid room, lookupD s.rooms rid = some room → room.players ≠ []

/-- C5 counterexample: the reachable state right after a room creation holds a
room whose player sequence is empty — room creation stores the room before
anyone has joined it. -/
theorem no_empty_room_cex :
    Reachable sLobby1 ∧ ¬ NoEmptyRooms sLobby1 := by
  constructor
  · exact Relation.ReflTransGen.single
      (Step.create initState "r1" 0 (some "Test") 2 none "classic" rfl True.intro)
  · intro h
    exact h "r1" ⟨"r1", "Test", 2, none, "classic", [], "waiting", 0, none⟩ (by decide) rfl

/-- C5 (amended): no operation other than room creation introduces an empty
room into the store: after a join, leave or toggle-ready event, any room
present with an empty player sequence was already present and empty before the
event (in particular a leave that empties a room deletes the room rather than
leaving it empty).  Only freshly created, never-joined rooms sit empty in the
store. -/
theorem no_new_empty_rooms (s s' : ServerState) (rid : String) (room' : Room)
    (h : Step noCreate anyJoin s s')
    (hl : lookupD s'.rooms rid = some room') (hemp : room'.players = []) :
    ∃ room, lookupD s.rooms rid = some room ∧ room.players = [] := by
  cases h with
  | create _ _ _ _ _ _ hfresh hc => exact hc.elim
  | join sid rid0 pn pwd hj =>
    rcases join_state_cases s sid rid0 pn pwd with heq | ⟨room0, hr, hcap, heq⟩
    · rw [heq] at hl
      exact ⟨room', hl, hemp⟩
    · rw [heq] at hl
      simp only at hl
      rw [lookupD_updateD] at hl
      by_cases hrid : rid = rid0
      · subst hrid
        rw [if_pos rfl, hr] at hl
        simp at hl
        rw [← hl] at hemp
        simp at hemp
      · rw [if_neg hrid] at hl
        exact ⟨room', hl, hemp⟩
  | leave sid =>
    rcases leave_state_cases s sid with heq | ⟨rid0, room0, hreg, hroom, hcase⟩
    · rw [heq] at hl
      exact ⟨room', hl, hemp⟩
    · rcases hcase with ⟨hfil, heq⟩ | ⟨hfil, heq⟩
      · rw [heq] at hl
        simp only at hl
        rw [lookupD_eraseD] at hl
        by_cases hrid : rid = rid0
        · rw [if_pos hrid] at hl
          exact absurd hl (by simp)
        · rw [if_neg hrid, lookupD_updateD, if_neg hrid] at hl
          exact ⟨room', hl, hemp⟩
      · rw [heq] at hl
        simp only at hl
        rw [lookupD_updateD] at hl
        by_cases hrid : rid = rid0
        · subst hrid
          rw [if_pos rfl, hroom] at hl
          simp at hl
          rw [← hl] at hemp
          simp only at hemp
          exact absurd hemp hfil
        · rw [if_neg hrid] at hl
          exact ⟨room', hl, hemp⟩
  | toggle sid s2 es2 hok =>
    rcases toggle_state_cases s sid s' es2 hok with heq | ⟨rid0, room0, hreg, hroom, hcase⟩
    · rw [heq] at hl
      exact ⟨room', hl, hemp⟩
    · rcases hcase with heq | ⟨p0, tl, hnp, heq⟩
      · rw [heq] at hl
        simp only at hl
        rw [lookupD_updateD] at hl
        by_cases hrid : rid = rid0
        · subst hrid
          rw [if_pos rfl, hroom] at hl
          simp at hl
          rw [← hl] at hemp
          simp only at hemp
          have h0p : room0.players = [] := by
            have := congrArg List.length hemp
            simp [flipPlayers] at this
            exact this
          exact ⟨room0, hroom, h0p⟩
        · rw [if_neg hrid] at hl
          exact ⟨room', hl, hemp⟩
      · rw [heq] at hl
        simp only at hl
        rw [lookupD_updateD] at hl
        by_cases hrid : rid = rid0
        · subst hrid
          rw [if_pos rfl, lookupD_updateD, if_pos rfl, lookupD_updateD, if_pos rfl, hroom] at hl
          simp at hl
          rw [← hl] at hemp
          simp only at hemp
          rw [hnp] at hemp
          simp at hemp
        · rw [if_neg hrid, lookupD_updateD, if_neg hrid, lookupD_updateD, if_neg hrid] at hl
          exact ⟨room', hl, hemp⟩

/-- A state holding an empty room "q" (just created, never joined) next to the
room "r" that connection "A" occupies. -/
def sW5 : ServerState :=
  ⟨[("q", ⟨"q", "Quiet", 2, none, "classic", [], "waiting", 0, none⟩),
    ("r", ⟨"r", "Busy", 2, none, "classic", [⟨"A", "Al", false⟩], "waiting", 0, none⟩)],
   [("A", "r")], [("r", ["A"])]⟩

/-- The empty room stored under "q" in `sW5`. -/
def roomQuiet : Room := ⟨"q", "Quiet", 2, none, "classic", [], "waiting", 0, none⟩

theorem no_new_empty_rooms_witness :
    (Step noCreate anyJoin sW5 (handle_leave_room sW5 "A").1
      ∧ lookupD (handle_leave_room sW5 "A").1.rooms "q" = some roomQuiet
      ∧ roomQuiet.players = [])
    ∧ ∃ room, lookupD sW5.rooms "q" = some room ∧ room.players = [] :=
  ⟨⟨Step.leave sW5 "A", by decide, rfl⟩,
    no_new_empty_rooms sW5 (handle_leave_room sW5 "A").1 "q" roomQuiet
      (Step.leave sW5 "A") (by decide) rfl⟩

/-- The spec's capacity invariant, over every room object in the store. -/
def CapInv (s : ServerState) : Prop :=
  ∀ e ∈ s.rooms, ((e.2.players.length : Int) ≤ e.2.max_players)

/-- The state after creating a room with `max_players = -1`: the create handler
performs no validation on `max_players` beyond `int(...)`. -/
def sNegCap : ServerState := (create_room initState "r1" 0 (some "Room") (-1) none "classic").1

/-- C2 counterexample: a creation request carrying `max_players = -1` is
accepted, and the resulting room has 0 players, which already exceeds its
maximum — so the invariant fails on a reachable state. -/
theorem capacity_invariant_cex : Reachable sNegCap ∧ ¬ CapInv sNegCap := by
  constructor
  · exact Relation.ReflTransGen.single
      (Step.create initState "r1" 0 (some "Room") (-1) none "classic" rfl True.intro)
  · intro h
    have := h ("r1", ⟨"r1", "Room", -1, none, "classic", [], "waiting", 0, none⟩) (by decide)
    exact absurd this (by decide)

theorem cap_step (s s' : ServerState) (h : Step nonnegCreate anyJoin s s')
    (hw : (keysOf s.rooms).Nodup ∧ CapInv s) :
    (keysOf s'.rooms).Nodup ∧ CapInv s' := by
  obtain ⟨hn, hc⟩ := hw
  cases h with
  | create rid now name mp pwd mode hfresh hcmp =>
    rcases create_state_cases s rid now name mp pwd mode with heq | ⟨n, hname, hne, heq⟩
    · rw [heq]
      exact ⟨hn, hc⟩
    · rw [heq]
      refine ⟨nodup_keys_insertD rid _ hn, ?_⟩
      intro e he
      rcases (mem_insertD_iff _ _ _ _).1 he with ⟨hmem, _⟩ | hnew
      · exact hc e hmem
      · rw [hnew]
        simpa using hcmp
  | join sid rid0 pn pwd hj =>
    rcases join_state_cases s sid rid0 pn pwd with heq | ⟨room0, hr, hcap, heq⟩
    · rw [heq]
      exact ⟨hn, hc⟩
    · rw [heq]
      dsimp only
      refine ⟨nodup_keys_updateD _ _ hn, ?_⟩
      intro e he
      try dsimp only at he
      rcases mem_updateD he with ⟨q, hq, he2⟩
      by_cases hk : q.1 = rid0
      · rw [he2, if_pos hk]
        have hlq : lookupD s.rooms rid0 = some q.2 := by
          rw [← hk]
          exact lookupD_of_mem_nodup hn hq
        rw [hr] at hlq
        have hq2 : room0 = q.2 := Option.some.inj hlq
        rw [← hq2]
        have hlt : (room0.players.length : Int) < room0.max_players := not_le.1 hcap
        simp only [List.length_append, List.length_cons, List.length_nil]
        push_cast
        omega
      · rw [he2, if_neg hk]
        exact hc q hq
  | leave sid =>
    rcases leave_state_cases s sid with heq | ⟨rid0, room0, hreg, hroom, hcase⟩
    · rw [heq]
      exact ⟨hn, hc⟩
    · have hstep2 : ∀ e, e ∈ updateD s.rooms rid0 (fun r => { r with players := r.players.filter (fun p => p.id != sid) }) → ((e.2.players.length : Int) ≤ e.2.max_players) := by
        intro e he
        try dsimp only at he
        rcases mem_updateD he with ⟨q, hq, he2⟩
        by_cases hk : q.1 = rid0
        · rw [he2, if_pos hk]
          have hone := hc q hq
          have hlf : (q.2.players.filter (fun p => p.id != sid)).length ≤ q.2.players.length :=
            List.length_filter_le _ _
          simp only []
          omega
        · rw [he2, if_neg hk]
          exact hc q hq
      rcases hcase with ⟨hfil, heq⟩ | ⟨hfil, heq⟩
      · rw [heq]
        dsimp only
        refine ⟨nodup_keys_eraseD _ (nodup_keys_updateD _ _ hn), ?_⟩
        intro e he
        try dsimp only at he
        have he2 := (mem_eraseD_iff _ _ _).1 he
        exact hstep2 e he2.1
      · rw [heq]
        dsimp only
        exact ⟨nodup_keys_updateD _ _ hn, hstep2⟩
  | toggle sid s2 es2 hok =>
    rcases toggle_state_cases s sid s' es2 hok with heq | ⟨rid0, room0, hreg, hroom, hcase⟩
    · rw [heq]
      exact ⟨hn, hc⟩
    · rcases hcase with heq | ⟨p0, tl, hnp, heq⟩
      · rw [heq]
        dsimp only
        refine ⟨nodup_keys_updateD _ _ hn, ?_⟩
        intro e he
        try dsimp only at he
        rcases mem_updateD he with ⟨q, hq, he2⟩
        by_cases hk : q.1 = rid0
        · rw [he2, if_pos hk]
          have hone := hc q hq
          have hflip : (flipPlayers q.2.players sid).length = q.2.players.length := by
            simp [flipPlayers]
          simp only []
          omega
        · rw [he2, if_neg hk]
          exact hc q hq
      · rw [heq]
        dsimp only
        refine ⟨nodup_keys_updateD _ _ (nodup_keys_updateD _ _ (nodup_keys_updateD _ _ hn)), ?_⟩
        intro e he
        try dsimp only at he
        rcases mem_updateD he with ⟨q3, hq3, he3⟩
        rcases mem_updateD hq3 with ⟨q2, hq2, he2⟩
        rcases mem_updateD hq2 with ⟨q1, hq1, he1⟩
        have hone := hc q1 hq1
        by_cases hk : q1.1 = rid0
        · rw [if_pos hk] at he1
          subst he1
          dsimp only at he2
          rw [if_pos hk] at he2
          subst he2
          dsimp only at he3
          rw [if_pos hk] at he3
          rw [he3]
          dsimp only
          have hflip : (flipPlayers q1.2.players sid).length = q1.2.players.length := by
            simp [flipPlayers]
          omega
        · rw [if_neg hk] at he1
          subst he1
          rw [if_neg hk] at he2
          subst he2
          rw [if_neg hk] at he3
          rw [he3]
          exact hone

/-- C2 (amended): provided every creation requests a nonnegative `max_players`
(the spec's data model declares the maximum a positive integer, which the code
does not validate), every reachable state satisfies `len(players) ≤
max_players` for every room in the store, after every operation. -/
theorem capacity_invariant (s : ServerState) (h : ReachableNN s) : CapInv s := by
  have hh : (keysOf s.rooms).Nodup ∧ CapInv s := by
    unfold ReachableNN at h
    induction h with
    | refl =>
      constructor
      · simp [initState, keysOf]
      · intro e he
        simp [initState] at he
    | tail h1 h2 ih => exact cap_step _ _ h2 ih
  exact hh.2

theorem capacity_invariant_witness :
    ReachableNN sLobby1 ∧ CapInv sLobby1 :=
  ⟨Relation.ReflTransGen.single
      (Step.create initState "r1" 0 (some "Test") 2 none "classic" rfl (by unfold nonnegCreate; decide)),
    capacity_invariant sLobby1
      (Relation.ReflTransGen.single
        (Step.create initState "r1" 0 (some "Test") 2 none "classic" rfl (by unfold nonnegCreate; decide)))⟩

/-- Well-formedness tying the connection registry (the global `players` dict)
to the room store: unique keys in both dicts, every binding resolves to a room
containing a player record with that connection id, and every player record of
every stored room is bound to exactly that room. -/
def RegWF (s : ServerState) : Prop :=
  (keysOf s.rooms).Nodup
  ∧ (keysOf s.players).Nodup
  ∧ (∀ sid rid, lookupD s.players sid = some rid
      → ∃ room, lookupD s.rooms rid = some room ∧ ∃ p, p ∈ room.players ∧ p.id = sid)
  ∧ (∀ e, e ∈ s.rooms → ∀ p, p ∈ e.2.players → lookupD s.players p.id = some e.1)

theorem flip_id (p : Player) (sid : String) :
    (if p.id = sid then { p with ready := !p.ready } else p).id = p.id := by
  by_cases h : p.id = sid <;> simp [h]

theorem regwf_step (s s' : ServerState) (h : Step anyCreate unboundJoin s s')
    (hw : RegWF s) : RegWF s' := by
  cases h with
  | create rid now name mp pwd mode hfresh hcj =>
    rcases create_state_cases s rid now name mp pwd mode with heq | ⟨n, hname, hne, heq⟩
    · rw [heq]
      exact hw
    · rw [heq]
      obtain ⟨h1, h2, h3, h4⟩ := hw
      refine ⟨nodup_keys_insertD _ _ h1, h2, ?_, ?_⟩
      · intro sid rid' hb
        obtain ⟨room, hrm, hp⟩ := h3 sid rid' hb
        refine ⟨room, ?_, hp⟩
        try dsimp only
        rw [lookupD_insertD]
        by_cases hr : rid' = rid
        · rw [hr, hfresh] at hrm
          exact absurd hrm (by simp)
        · rw [if_neg hr]
          exact hrm
      · intro e he p hp
        try dsimp only at he
        rw [insertD_of_fresh _ hfresh] at he
        rcases List.mem_append.1 he with hm | hm
        · exact h4 e hm p hp
        · simp only [List.mem_singleton] at hm
          rw [hm] at hp
          simp at hp
  | join sid rid0 pn pwd hj =>
    have hju : lookupD s.players sid = none := hj
    rcases join_state_cases s sid rid0 pn pwd with heq | ⟨room0, hr, hcap, heq⟩
    · rw [heq]
      exact hw
    · rw [heq]
      dsimp only [RegWF]
      obtain ⟨h1, h2, h3, h4⟩ := hw
      refine ⟨nodup_keys_updateD _ _ h1, nodup_keys_insertD _ _ h2, ?_, ?_⟩
      · intro x rid' hb
        try dsimp only at hb ⊢
        rw [lookupD_insertD] at hb
        by_cases hx : x = sid
        · rw [if_pos hx] at hb
          have hb2 : rid0 = rid' := Option.some.inj hb
          rw [← hb2]
          rw [lookupD_updateD, if_pos rfl, hr]
          refine ⟨_, rfl, ⟨sid, pn.getD ("玩家-" ++ sid.take 4), false⟩, ?_, hx.symm⟩
          try dsimp only
          exact List.mem_append.2 (Or.inr (by simp))
        · rw [if_neg hx] at hb
          obtain ⟨room, hrm, p, hp, hpid⟩ := h3 x rid' hb
          rw [lookupD_updateD]
          by_cases hr' : rid' = rid0
          · rw [if_pos hr']
            rw [hr'] at hrm
            rw [hrm]
            refine ⟨_, rfl, p, ?_, hpid⟩
            try dsimp only
            exact List.mem_append.2 (Or.inl hp)
          · rw [if_neg hr']
            exact ⟨room, hrm, p, hp, hpid⟩
      · intro e he p hp
        try dsimp only at he ⊢
        rcases mem_updateD he with ⟨q, hq, he2⟩
        by_cases hk : q.1 = rid0
        · rw [if_pos hk] at he2
          subst he2
          try dsimp only at hp
          rcases List.mem_append.1 hp with hm | hm
          · have hold := h4 q hq p hm
            rw [lookupD_insertD]
            by_cases hpid : p.id = sid
            · rw [hpid, hju] at hold
              exact absurd hold (by simp)
            · rw [if_neg hpid]
              exact hold
          · simp only [List.mem_singleton] at hm
            rw [hm]
            try dsimp only
            rw [lookupD_insertD, if_pos rfl, hk]
        · rw [if_neg hk] at he2
          rw [he2] at hp ⊢
          have hold := h4 q hq p hp
          rw [lookupD_insertD]
          by_cases hpid : p.id = sid
          · rw [hpid, hju] at hold
            exact absurd hold (by simp)
          · rw [if_neg hpid]
            exact hold
  | leave sid =>
    rcases leave_state_cases s sid with heq | ⟨rid0, room0, hreg, hroom, hcase⟩
    · rw [heq]
      exact hw
    · obtain ⟨h1, h2, h3, h4⟩ := hw
      rcases hcase with ⟨hfil, heq⟩ | ⟨hfil, heq⟩
      · rw [heq]
        dsimp only [RegWF]
        refine ⟨nodup_keys_eraseD _ (nodup_keys_updateD _ _ h1), nodup_keys_eraseD _ h2, ?_, ?_⟩
        · intro x rid' hb
          try dsimp only at hb ⊢
          rw [lookupD_eraseD] at hb
          by_cases hx : x = sid
          · rw [if_pos hx] at hb
            exact absurd hb (by simp)
          · rw [if_neg hx] at hb
            obtain ⟨room, hrm, p, hp, hpid⟩ := h3 x rid' hb
            by_cases hr' : rid' = rid0
            · exfalso
              rw [hr', hroom] at hrm
              have hro : room0 = room := Option.some.inj hrm
              have hpin : p ∈ room0.players := by
                rw [hro]
                exact hp
              have hmem : p ∈ room0.players.filter (fun q => q.id != sid) :=
                List.mem_filter.2 ⟨hpin, by simp [hpid, hx]⟩
              rw [hfil] at hmem
              simp at hmem
            · refine ⟨room, ?_, p, hp, hpid⟩
              rw [lookupD_eraseD, if_neg hr', lookupD_updateD, if_neg hr']
              exact hrm
        · intro e he p hp
          try dsimp only at he ⊢
          have he2 := (mem_eraseD_iff _ _ _).1 he
          rcases mem_updateD he2.1 with ⟨q, hq, he3⟩
          have he1 : e.1 = q.1 := by
            rw [he3]
            by_cases hk : q.1 = rid0 <;> simp [hk]
          have hk : ¬ q.1 = rid0 := by
            intro hk0
            exact he2.2 (he1 ▸ hk0)
          rw [if_neg hk] at he3
          rw [he3] at hp ⊢
          have hold := h4 q hq p hp
          rw [lookupD_eraseD]
          by_cases hpid : p.id = sid
          · exfalso
            rw [hpid, hreg] at hold
            exact hk (Option.some.inj hold).symm
          · rw [if_neg hpid]
            exact hold
      · rw [heq]
        dsimp only [RegWF]
        refine ⟨nodup_keys_updateD _ _ h1, nodup_keys_eraseD _ h2, ?_, ?_⟩
        · intro x rid' hb
          try dsimp only at hb ⊢
          rw [lookupD_eraseD] at hb
          by_cases hx : x = sid
          · rw [if_pos hx] at hb
            exact absurd hb (by simp)
          · rw [if_neg hx] at hb
            obtain ⟨room, hrm, p, hp, hpid⟩ := h3 x rid' hb
            rw [lookupD_updateD]
            by_cases hr' : rid' = rid0
            · rw [if_pos hr']
              rw [hr', hroom] at hrm
              have hro : room0 = room := Option.some.inj hrm
              rw [hroom]
              refine ⟨_, rfl, p, ?_, hpid⟩
              try dsimp only
              refine List.mem_filter.2 ⟨?_, by simp [hpid, hx]⟩
              rw [hro]
              exact hp
            · rw [if_neg hr']
              exact ⟨room, hrm, p, hp, hpid⟩
        · intro e he p hp
          try dsimp only at he ⊢
          rcases mem_updateD he with ⟨q, hq, he2⟩
          by_cases hk : q.1 = rid0
          · rw [if_pos hk] at he2
            subst he2
            try dsimp only at hp
            have hp2 := List.mem_filter.1 hp
            have hold := h4 q hq p hp2.1
            have hpid : ¬ p.id = sid := by
              simpa using hp2.2
            rw [lookupD_eraseD, if_neg hpid]
            exact hold
          · rw [if_neg hk] at he2
            rw [he2] at hp ⊢
            have hold := h4 q hq p hp
            rw [lookupD_eraseD]
            by_cases hpid : p.id = sid
            · exfalso
              rw [hpid, hreg] at hold
              exact hk (Option.some.inj hold).symm
            · rw [if_neg hpid]
              exact hold
  | toggle sid s2 es2 hok =>
    rcases toggle_state_cases s sid s' es2 hok with heq | ⟨rid0, room0, hreg, hroom, hcase⟩
    · rw [heq]
      exact hw
    · obtain ⟨h1, h2, h3, h4⟩ := hw
      rcases hcase with heq | ⟨p0, tl0, hnp, heq⟩
      · rw [heq]
        dsimp only [RegWF]
        refine ⟨nodup_keys_updateD _ _ h1, h2, ?_, ?_⟩
        · intro x rid' hb
          try dsimp only at hb ⊢
          obtain ⟨room, hrm, p, hp, hpid⟩ := h3 x rid' hb
          rw [lookupD_updateD]
          by_cases hr' : rid' = rid0
          · rw [if_pos hr']
            rw [hr'] at hrm
            rw [hrm]
            refine ⟨_, rfl, ?_⟩
            try dsimp only
            unfold flipPlayers
            refine ⟨if p.id = sid then { p with ready := !p.ready } else p,
              List.mem_map.2 ⟨p, hp, rfl⟩, ?_⟩
            rw [flip_id]
            exact hpid
          · rw [if_neg hr']
            exact ⟨room, hrm, p, hp, hpid⟩
        · intro e he p hp
          try dsimp only at he ⊢
          rcases mem_updateD he with ⟨q, hq, he2⟩
          by_cases hk : q.1 = rid0
          · rw [if_pos hk] at he2
            subst he2
            try dsimp only at hp
            unfold flipPlayers at hp
            rcases List.mem_map.1 hp with ⟨p1, hp1, hpe⟩
            have hold := h4 q hq p1 hp1
            have hid : p.id = p1.id := by
              rw [← hpe]
              exact flip_id p1 sid
            rw [hid]
            exact hold
          · rw [if_neg hk] at he2
            rw [he2] at hp ⊢
            exact h4 q hq p hp
      · rw [heq]
        dsimp only [RegWF]
        refine ⟨nodup_keys_updateD _ _ (nodup_keys_updateD _ _ (nodup_keys_updateD _ _ h1)),
          h2, ?_, ?_⟩
        · intro x rid' hb
          try dsimp only at hb ⊢
          obtain ⟨room, hrm, p, hp, hpid⟩ := h3 x rid' hb
          rw [lookupD_updateD]
          by_cases hr' : rid' = rid0
          · rw [if_pos hr', lookupD_updateD, if_pos rfl, lookupD_updateD, if_pos rfl]
            rw [hr'] at hrm
            rw [hrm]
            refine ⟨_, rfl, ?_⟩
            try dsimp only
            unfold flipPlayers
            refine ⟨if p.id = sid then { p with ready := !p.ready } else p,
              List.mem_map.2 ⟨p, hp, rfl⟩, ?_⟩
            rw [flip_id]
            exact hpid
          · rw [if_neg hr', lookupD_updateD, if_neg hr', lookupD_updateD, if_neg hr']
            exact ⟨room, hrm, p, hp, hpid⟩
        · intro e he p hp
          try dsimp only at he ⊢
          rcases mem_updateD he with ⟨q3, hq3, he3⟩
          rcases mem_updateD hq3 with ⟨q2, hq2, he2⟩
          rcases mem_updateD hq2 with ⟨q1, hq1, he1⟩
          by_cases hk : q1.1 = rid0
          · rw [if_pos hk] at he1
            subst he1
            try dsimp only at he2
            rw [if_pos hk] at he2
            subst he2
            try dsimp only at he3
            rw [if_pos hk] at he3
            subst he3
            try dsimp only at hp ⊢
            unfold flipPlayers at hp
            rcases List.mem_map.1 hp with ⟨p1, hp1, hpe⟩
            have hold := h4 q1 hq1 p1 hp1
            have hid : p.id = p1.id := by
              rw [← hpe]
              exact flip_id p1 sid
            rw [hid]
            exact hold
          · rw [if_neg hk] at he1
            rw [he1] at he2
            rw [if_neg hk] at he2
            rw [he2] at he3
            rw [if_neg hk] at he3
            rw [he3] at hp ⊢
            exact h4 q1 hq1 p hp

theorem regwf_reachable (s : ServerState) (h : ReachableUJ s) : RegWF s := by
  unfold ReachableUJ at h
  induction h with
  | refl =>
    refine ⟨by simp [initState, keysOf], by simp [initState, keysOf], ?_, ?_⟩
    · intro sid rid hb
      simp [initState, lookupD] at hb
    · intro e he
      simp [initState] at he
  | tail h1 h2 ih => exact regwf_step _ _ h2 ih

/-- C3 (amended): provided every join comes from a connection not already
bound to a room (the code never checks this), after every operation a
connection id is a registry key iff a player record with that id sits in some
room of the store, that room is unique, and the bound room id resolves to a
room containing the record. -/
theorem registry_matches_rooms (s : ServerState) (h : ReachableUJ s) :
    ∀ sid : String,
      ((∃ rid, lookupD s.players sid = some rid)
          ↔ ∃ e, e ∈ s.rooms ∧ ∃ p, p ∈ e.2.players ∧ p.id = sid)
      ∧ (∀ e1 e2, e1 ∈ s.rooms → e2 ∈ s.rooms
          → (∃ p, p ∈ e1.2.players ∧ p.id = sid)
          → (∃ p, p ∈ e2.2.players ∧ p.id = sid) → e1 = e2)
      ∧ (∀ rid, lookupD s.players sid = some rid
          → ∃ room, lookupD s.rooms rid = some room ∧ ∃ p, p ∈ room.players ∧ p.id = sid) := by
  obtain ⟨h1, h2, h3, h4⟩ := regwf_reachable s h
  intro sid
  refine ⟨⟨?_, ?_⟩, ?_, ?_⟩
  · rintro ⟨rid, hb⟩
    obtain ⟨room, hrm, p, hp, hpid⟩ := h3 sid rid hb
    exact ⟨(rid, room), lookupD_mem hrm, p, hp, hpid⟩
  · rintro ⟨e, he, p, hp, hpid⟩
    have := h4 e he p hp
    rw [hpid] at this
    exact ⟨e.1, this⟩
  · rintro e1 e2 he1 he2 ⟨p1, hp1, hid1⟩ ⟨p2, hp2, hid2⟩
    have hb1 := h4 e1 he1 p1 hp1
    have hb2 := h4 e2 he2 p2 hp2
    rw [hid1] at hb1
    rw [hid2] at hb2
    rw [hb1] at hb2
    have hk : e1.1 = e2.1 := Option.some.inj hb2
    obtain ⟨a1, b1⟩ := e1
    obtain ⟨a2, b2⟩ := e2
    simp only at hk
    subst hk
    have hv : b1 = b2 := value_eq_of_mem_nodup h1 he1 he2
    rw [hv]
  · intro rid hb
    exact h3 sid rid hb

/-- Double-join scenario: two rooms are created, then connection "A" joins
"r1" and — without leaving — joins "r2" as well; the code performs no
already-bound check, so "A"'s player record now sits in both rooms while the
registry points only at "r2". -/
def sDou1 : ServerState := (create_room initState "r1" 0 (some "Room1") 2 none "classic").1

def sDou2 : ServerState := (create_room sDou1 "r2" 0 (some "Room2") 2 none "classic").1

def sDou3 : ServerState := (handle_join_room sDou2 "A" "r1" (some "Ann") none).1

def sDou4 : ServerState := (handle_join_room sDou3 "A" "r2" (some "Ann") none).1

def roomDou1 : Room :=
  ⟨"r1", "Room1", 2, none, "classic", [⟨"A", "Ann", false⟩], "waiting", 0, none⟩

def roomDou2 : Room :=
  ⟨"r2", "Room2", 2, none, "classic", [⟨"A", "Ann", false⟩], "waiting", 0, none⟩

/-- C3 counterexample: in the reachable double-join state, the player record
keyed "A" appears in the player sequences of two distinct rooms of the store,
so a bound connection id does not appear in exactly one room. -/
theorem registry_matches_rooms_cex :
    Reachable sDou4
    ∧ ("r1", roomDou1) ∈ sDou4.rooms
    ∧ ("r2", roomDou2) ∈ sDou4.rooms
    ∧ (∃ p, p ∈ roomDou1.players ∧ p.id = "A")
    ∧ (∃ p, p ∈ roomDou2.players ∧ p.id = "A")
    ∧ ("r1", roomDou1) ≠ ("r2", roomDou2) := by
  refine ⟨?_, by decide, by decide,
    ⟨⟨"A", "Ann", false⟩, by decide, rfl⟩, ⟨⟨"A", "Ann", false⟩, by decide, rfl⟩, by decide⟩
  have c1 : Step anyCreate anyJoin initState sDou1 :=
    Step.create initState "r1" 0 (some "Room1") 2 none "classic" rfl True.intro
  have c2 : Step anyCreate anyJoin sDou1 sDou2 :=
    Step.create sDou1 "r2" 0 (some "Room2") 2 none "classic" rfl True.intro
  have j1 : Step anyCreate anyJoin sDou2 sDou3 :=
    Step.join sDou2 "A" "r1" (some "Ann") none True.intro
  have j2 : Step anyCreate anyJoin sDou3 sDou4 :=
    Step.join sDou3 "A" "r2" (some "Ann") none True.intro
  exact Relation.ReflTransGen.tail
    (Relation.ReflTransGen.tail
      (Relation.ReflTransGen.tail (Relation.ReflTransGen.single c1) c2) j1) j2

theorem registry_matches_rooms_witness :
    ReachableUJ sLobby2
    ∧ ∀ sid : String,
      ((∃ rid, lookupD sLobby2.players sid = some rid)
          ↔ ∃ e, e ∈ sLobby2.rooms ∧ ∃ p, p ∈ e.2.players ∧ p.id = sid)
      ∧ (∀ e1 e2, e1 ∈ sLobby2.rooms → e2 ∈ sLobby2.rooms
          → (∃ p, p ∈ e1.2.players ∧ p.id = sid)
          → (∃ p, p ∈ e2.2.players ∧ p.id = sid) → e1 = e2)
      ∧ (∀ rid, lookupD sLobby2.players sid = some rid
          → ∃ room, lookupD sLobby2.rooms rid = some room ∧ ∃ p, p ∈ room.players ∧ p.id = sid) :=
  ⟨Relation.ReflTransGen.tail
      (Relation.ReflTransGen.single
        (Step.create initState "r1" 0 (some "Test") 2 none "classic" rfl True.intro))
      (Step.join sLobby1 "A" "r1" (some "Alice") none rfl),
    registry_matches_rooms sLobby2
      (Relation.ReflTransGen.tail
        (Relation.ReflTransGen.single
          (Step.create initState "r1" 0 (some "Test") 2 none "classic" rfl True.intro))
        (Step.join sLobby1 "A" "r1" (some "Alice") none rfl))⟩
